import Mathlib

/-!
Shallow embedding of the sitemap-diff scheduler and aggregation pipeline
(Cloudflare Workers entry `performScheduledMonitoring` and the Telegram
module's `extractKeywordsWithCount` / `extractDomainStats` /
`sendUnifiedReport` / `handleNewsCommand`), together with theorems about
the embedded definitions.

Strings are modelled as Lean `String`s (the URLs involved are ASCII, so
JavaScript's UTF-16 `length` coincides with the character count), machine
integers as `Nat`, JavaScript `Map`s as association lists in insertion
order, thrown exceptions as `Except`, and the stable `Array.prototype.sort`
as a stable insertion sort.
-/

namespace SitemapDiff

/-! ### Model of the host platform URL parser -/

/-- Result of the platform `new URL(s)`: the fields the repository reads. -/
structure URLObj where
  hostname : String
  pathname : String
deriving DecidableEq

/-- Drop a literal character sequence from the front of a list; `none` if the
list does not start with it. -/
def dropLit : List Char → List Char → Option (List Char)
  | [], s => some s
  | _ :: _, [] => none
  | p :: ps, c :: cs => if c = p then dropLit ps cs else none

/-- Model of the host platform WHATWG `new URL(s)` constructor, restricted to
absolute `http(s)` URLs made of a scheme, a host and a path (the only shape the
repository feeds it).  A parse failure (the constructor throwing `TypeError`)
is `none`. -/
def parseURL (s : String) : Option URLObj :=
  let afterScheme :=
    match dropLit "https://".data s.data with
    | some r => some r
    | none => dropLit "http://".data s.data
  match afterScheme with
  | none => none
  | some rest =>
    let host := rest.takeWhile (fun c => c ≠ '/')
    let path := rest.dropWhile (fun c => c ≠ '/')
    if host = [] then none
    else some { hostname := ⟨host⟩, pathname := if path = [] then "/" else ⟨path⟩ }

/-! ### JavaScript helpers: `split`, `Map` as assoc list, stable sort -/

/-- `s.split(sep)` for a one-character separator, on the character list. -/
def splitChar (sep : Char) : List Char → List (List Char)
  | [] => [[]]
  | c :: rest =>
    match splitChar sep rest with
    | [] => if c = sep then [[], []] else [[c]]
    | g :: gs => if c = sep then [] :: g :: gs else (c :: g) :: gs

/-- `m.set(k, (m.get(k) || 0) + 1)` on a JavaScript `Map` kept as an
association list in key-insertion order: an existing key is bumped in place,
a new key is appended at the end. -/
def bumpCount (k : String) : List (String × Nat) → List (String × Nat)
  | [] => [(k, 1)]
  | (k', c) :: rest =>
    if k' = k then (k', c + 1) :: rest else (k', c) :: bumpCount k rest

/-- Stable insertion of `x` into `l` for a descending sort on `key`: `x` goes
in front of the first element whose key is not larger, so among equal keys the
earlier input element stays first (JavaScript's sort is stable). -/
def insDesc {α : Type} (key : α → Nat) (x : α) : List α → List α
  | [] => [x]
  | y :: ys => if key y ≤ key x then x :: y :: ys else y :: insDesc key x ys

/-- Model of `arr.sort((a, b) => key(b) - key(a))`: a stable sort descending
on `key`. -/
def sortDesc {α : Type} (key : α → Nat) : List α → List α
  | [] => []
  | x :: xs => insDesc key x (sortDesc key xs)

/-! ### Keyword and domain aggregation (telegram-bot.js lines 299-357) -/

/-- One entry of the keyword statistics: `{keyword, count}`. -/
structure KeywordStat where
  keyword : String
  count : Nat
deriving DecidableEq

/-- One entry of the domain statistics: `{domain, count}`. -/
structure DomainStat where
  domain : String
  count : Nat
deriving DecidableEq

/-- The stoplist regex `/^(index|page|post|article|news|blog)$/i`. -/
def stopWords : List String := ["index", "page", "post", "article", "news", "blog"]

/-- The body of the inner segment loop of `extractKeywordsWithCount`: the
filter conditions and hyphen-removing lower-casing normalisation; `some k`
when the segment contributes keyword `k`. -/
def segKeyword (seg : List Char) : Option String :=
  if 2 < seg.length ∧
      ¬(seg ≠ [] ∧ seg.all Char.isDigit) ∧
      ¬seg.contains '.' ∧
      ¬stopWords.contains ⟨seg.map Char.toLower⟩ then
    let clean := (seg.filter (fun c => c ≠ '-')).map Char.toLower
    if 2 < clean.length then some ⟨clean⟩ else none
  else none

/-- The keywords contributed by one URL: path split on `/`, segments of length
`≤ 2` discarded, then the segment filter and normalisation.  An unparseable
URL contributes nothing (the `try { new URL(url) } catch` in the source). -/
def urlKeywords (url : String) : List String :=
  match parseURL url with
  | none => []
  | some u =>
    ((splitChar '/' u.pathname.data).filter (fun seg => 2 < seg.length)).filterMap
      segKeyword

/-- The keyword frequency `Map` built by `extractKeywordsWithCount`, in
key-insertion (first-seen) order. -/
def kwCounts (urls : List String) : List (String × Nat) :=
  urls.foldl (fun m url => (urlKeywords url).foldl (fun m k => bumpCount k m) m) []

/-- The keyword `Map` entries as `{keyword, count}` records, still in
first-seen order. -/
def kwStatList (urls : List String) : List KeywordStat :=
  (kwCounts urls).map (fun p => { keyword := p.1, count := p.2 })

/-- `extractKeywordsWithCount` (telegram-bot.js lines 299-333): frequency
table, sorted by count descending with the platform's stable sort, truncated
to the first 10 entries. -/
def extractKeywordsWithCount (urls : List String) : List KeywordStat :=
  (sortDesc (fun s => s.count) (kwStatList urls)).take 10

/-- The domain frequency `Map` built by `extractDomainStats`, in first-seen
order; an unparseable URL contributes nothing. -/
def domainCounts (urls : List String) : List (String × Nat) :=
  urls.foldl
    (fun m url =>
      match parseURL url with
      | none => m
      | some u => bumpCount u.hostname m)
    []

/-- `extractDomainStats` (telegram-bot.js lines 340-357): per-host counts,
sorted by count descending; not truncated. -/
def extractDomainStats (urls : List String) : List DomainStat :=
  sortDesc (fun s => s.count)
    ((domainCounts urls).map (fun p => { domain := p.1, count := p.2 }))

/-! ### The scheduled monitoring pass (worker entry, `performScheduledMonitoring`) -/

/-- The fields of the `rssManager.addFeed(url)` result that the scheduler
reads. -/
structure Outcome where
  success : Bool
  newUrls : List String
deriving DecidableEq

/-- The progress record stored under `monitoring_progress`.  The wall-clock
`lastUpdate` string is not modelled; machine integers deserialised from JSON
are modelled as `Nat` (the scheduler only ever writes non-negative values). -/
structure Progress where
  lastIndex : Nat
  totalFeeds : Nat
  processedInThisBatch : Nat
deriving DecidableEq

/-- `BATCH_SIZE = 25`. -/
def BATCH_SIZE : Nat := 25

/-- The slice picked for one pass together with the cursor value to persist. -/
structure Selection where
  slice : List String
  nextIndex : Nat
deriving DecidableEq

/-- Lines 84-88 and 131 of the worker entry: `startIndex = lastIndex`,
`endIndex = min(startIndex + batchSize, feeds.length)`,
`currentBatch = feeds.slice(startIndex, endIndex)` (modelled as
drop-then-take, which is JavaScript `Array.prototype.slice` for non-negative
indices), and `nextIndex = endIndex >= feeds.length ? 0 : endIndex`. -/
def selectBatch (feeds : List String) (lastIndex : Nat) (batchSize : Nat) : Selection :=
  let startIndex := lastIndex
  let endIndex := min (startIndex + batchSize) feeds.length
  { slice := (feeds.drop startIndex).take (endIndex - startIndex)
    nextIndex := if feeds.length ≤ endIndex then 0 else endIndex }

/-- The per-feed outcome record of one loop iteration: the information the
loop body of the pass produces for one URL. -/
structure FeedResult where
  url : String
  success : Bool
  newUrls : List String
  errorMessage : Option String
deriving DecidableEq

/-- One iteration of the monitoring loop for one URL.  The fallible per-feed
work (`rssManager.addFeed` and the content fetch) is abstracted as
`inspect : String → Except String Outcome`; a thrown exception (`.error`) is
caught by the `try/catch` inside the loop and recorded, never rethrown.
(`sendUpdateNotification` cannot throw: it catches its own errors.) -/
def handleFeed (inspect : String → Except String Outcome) (url : String) : FeedResult :=
  match inspect url with
  | .error e => { url := url, success := false, newUrls := [], errorMessage := some e }
  | .ok r =>
    if r.success then
      { url := url, success := true, newUrls := r.newUrls, errorMessage := none }
    else
      { url := url, success := false, newUrls := [], errorMessage := none }

/-- The monitoring loop over the selected slice (lines 93-128): strictly
sequential, one `FeedResult` per URL, failures isolated per iteration. -/
def processBatch (inspect : String → Except String Outcome) (batch : List String) :
    List FeedResult :=
  batch.map (handleFeed inspect)

/-- The `allNewUrls` accumulator: URLs pushed only for a successful outcome
with a non-empty `newUrls` list. -/
def allNewUrlsOf (results : List FeedResult) : List String :=
  results.foldl
    (fun acc r => if r.success && !r.newUrls.isEmpty then acc ++ r.newUrls else acc) []

/-- The externally visible effects of one scheduling pass: the progress
record written to the store (`none` when no write happens), the per-feed
results, the per-feed immediate notifications sent (`sendUpdateNotification`
call arguments), and the argument of the final `sendKeywordsSummary` call
(`none` when it is not invoked). -/
structure PassResult where
  cursorWrite : Option Progress
  results : List FeedResult
  immediateNotifs : List (String × List String)
  keywordSummaryArg : Option (List String)
deriving DecidableEq

/-- `performScheduledMonitoring` (worker entry, lines 50-161) as a function of
the feed list, the stored progress record (`none` when the key is absent or
its read/parse failed, which the source turns into `lastIndex = 0`), and the
per-feed inspection collaborator. -/
def performScheduledMonitoring (inspect : String → Except String Outcome)
    (feeds : List String) (stored : Option Progress) : PassResult :=
  if feeds.length = 0 then
    { cursorWrite := none, results := [], immediateNotifs := [], keywordSummaryArg := none }
  else
    let lastIndex := match stored with | some p => p.lastIndex | none => 0
    let sel := selectBatch feeds lastIndex BATCH_SIZE
    let results := processBatch inspect sel.slice
    let allNewUrls := allNewUrlsOf results
    { cursorWrite := some
        { lastIndex := sel.nextIndex
          totalFeeds := feeds.length
          processedInThisBatch := sel.slice.length }
      results := results
      immediateNotifs :=
        (results.filter (fun r => r.success && !r.newUrls.isEmpty)).map
          (fun r => (r.url, r.newUrls))
      keywordSummaryArg := if 0 < allNewUrls.length then some allNewUrls else none }

/-! ### The unified report (`handleNewsCommand` / `sendUnifiedReport`) -/

/-- One value of the `domainResults` map of `handleNewsCommand`. -/
structure DomainData where
  domain : String
  newUrls : List String
  totalNew : Nat
deriving DecidableEq

/-- One rendered per-domain block of the report breakdown: domain name, new
count, up to 3 sample links and the `...and N more` count. -/
structure DomainBlock where
  domain : String
  totalNew : Nat
  sampleUrls : List String
  moreCount : Nat
deriving DecidableEq

/-- The per-domain breakdown portion of the unified report: either the
explicit no-new-content notice line, or a (possibly empty) list of per-domain
blocks. -/
inductive BreakdownSection where
  | noContentNotice : BreakdownSection
  | blocks : List DomainBlock → BreakdownSection
deriving DecidableEq

/-- Rendering of one domain into its report block (lines 201-213). -/
def domainBlockOf (d : DomainData) : DomainBlock :=
  { domain := d.domain
    totalNew := d.totalNew
    sampleUrls := d.newUrls.take 3
    moreCount := d.newUrls.length - 3 }

/-- The breakdown logic of `sendUnifiedReport` (lines 192-215): the explicit
notice exactly when the `domainResults` map is empty; otherwise the domains
with `totalNew > 0`, sorted descending by `totalNew`, rendered as blocks. -/
def breakdownSection (domainResults : List DomainData) : BreakdownSection :=
  if domainResults.length = 0 then
    .noContentNotice
  else
    .blocks
      ((sortDesc (fun d => d.totalNew)
          (domainResults.filter (fun d => decide (0 < d.totalNew)))).map domainBlockOf)

/-- `if (!domainResults.has(domain)) domainResults.set(domain, empty)`:
appends a fresh empty entry when the key is new. -/
def ensureDomain (domain : String) (l : List DomainData) : List DomainData :=
  if l.any (fun d => d.domain == domain) then l
  else l ++ [{ domain := domain, newUrls := [], totalNew := 0 }]

/-- Push `urls` onto the entry for `domain` and add to its `totalNew`. -/
def addUrlsToDomain (domain : String) (urls : List String) :
    List DomainData → List DomainData
  | [] => []
  | d :: ds =>
    if d.domain = domain then
      { d with newUrls := d.newUrls ++ urls, totalNew := d.totalNew + urls.length } :: ds
    else
      d :: addUrlsToDomain domain urls ds

/-- The accumulating state of the `handleNewsCommand` loop. -/
structure NewsState where
  domainResults : List DomainData
  allNewUrls : List String
  processedCount : Nat
  errorCount : Nat
deriving DecidableEq

/-- One iteration of the `handleNewsCommand` loop (lines 525-558).  The
fallible `rssManager.downloadSitemap(url, true)` is `inspect`; a throw is
caught and counted in `errorCount`.  `processedCount` is incremented before
`new URL(url)` runs, so a URL whose parse throws still counts as processed
and then also as an error. -/
def newsStep (inspect : String → Except String Outcome) (s : NewsState)
    (url : String) : NewsState :=
  match inspect url with
  | .error _ => { s with errorCount := s.errorCount + 1 }
  | .ok r =>
    let s := { s with processedCount := s.processedCount + 1 }
    if r.success then
      match parseURL url with
      | none => { s with errorCount := s.errorCount + 1 }
      | some u =>
        let dr := ensureDomain u.hostname s.domainResults
        if r.newUrls.isEmpty then
          { s with domainResults := dr }
        else
          { s with
            domainResults := addUrlsToDomain u.hostname r.newUrls dr
            allNewUrls := s.allNewUrls ++ r.newUrls }
    else
      s

/-- The collection phase of `handleNewsCommand`: fold the loop over all
feeds starting from the empty state. -/
def handleNewsCommand (inspect : String → Except String Outcome)
    (feeds : List String) : NewsState :=
  feeds.foldl (newsStep inspect) { domainResults := [], allNewUrls := [], processedCount := 0, errorCount := 0 }

/-! ### Lemmas about the stable descending sort -/

theorem insDesc_perm {α : Type} (key : α → Nat) (x : α) (l : List α) :
    (insDesc key x l).Perm (x :: l) := by
  induction l with
  | nil => simp [insDesc]
  | cons y ys ih =>
    by_cases h : key y ≤ key x
    · simp [insDesc, h]
    · simp only [insDesc, if_neg h]
      exact (ih.cons y).trans (List.Perm.swap x y ys)

theorem sortDesc_perm {α : Type} (key : α → Nat) (l : List α) :
    (sortDesc key l).Perm l := by
  induction l with
  | nil => simp [sortDesc]
  | cons x xs ih => exact (insDesc_perm key x (sortDesc key xs)).trans (ih.cons x)

theorem mem_sortDesc {α : Type} {key : α → Nat} {l : List α} {a : α}
    (h : a ∈ sortDesc key l) : a ∈ l :=
  (sortDesc_perm key l).mem_iff.mp h

theorem mem_insDesc {α : Type} {key : α → Nat} {x a : α} {l : List α}
    (h : a ∈ insDesc key x l) : a = x ∨ a ∈ l := by
  have := (insDesc_perm key x l).mem_iff.mp h
  simpa using this

theorem insDesc_pairwise {α : Type} (key : α → Nat) (x : α) {l : List α}
    (hl : l.Pairwise (fun a b => key b ≤ key a)) :
    (insDesc key x l).Pairwise (fun a b => key b ≤ key a) := by
  induction l with
  | nil => simp [insDesc]
  | cons y ys ih =>
    rcases List.pairwise_cons.mp hl with ⟨hy, hys⟩
    by_cases h : key y ≤ key x
    · rw [insDesc, if_pos h]
      refine List.pairwise_cons.mpr ⟨?_, hl⟩
      intro z hz
      rcases List.mem_cons.mp hz with rfl | hz
      · exact h
      · exact Nat.le_trans (hy z hz) h
    · rw [insDesc, if_neg h]
      refine List.pairwise_cons.mpr ⟨?_, ih hys⟩
      intro z hz
      rcases mem_insDesc hz with rfl | hz
      · exact Nat.le_of_lt (Nat.lt_of_not_le h)
      · exact hy z hz

theorem sortDesc_pairwise {α : Type} (key : α → Nat) (l : List α) :
    (sortDesc key l).Pairwise (fun a b => key b ≤ key a) := by
  induction l with
  | nil => simp [sortDesc]
  | cons x xs ih => exact insDesc_pairwise key x ih

theorem insDesc_filter_key {α : Type} (key : α → Nat) (x : α) (l : List α) (c : Nat) :
    (insDesc key x l).filter (fun a => key a == c) =
      if key x = c then x :: l.filter (fun a => key a == c)
      else l.filter (fun a => key a == c) := by
  induction l with
  | nil =>
    rw [insDesc]
    by_cases hx : key x = c <;> simp [List.filter_cons, hx]
  | cons y ys ih =>
    by_cases h : key y ≤ key x
    · rw [insDesc, if_pos h]
      by_cases hx : key x = c <;> simp [List.filter_cons, hx]
    · rw [insDesc, if_neg h]
      have hxy : key x < key y := Nat.lt_of_not_le h
      by_cases hy : key y = c
      · have hx : ¬ key x = c := by omega
        rw [List.filter_cons, ih, if_neg hx]
        simp [hy, hx]
      · by_cases hx : key x = c <;>
          · rw [List.filter_cons, ih]
            simp [hy, hx]

theorem sortDesc_filter_key {α : Type} (key : α → Nat) (l : List α) (c : Nat) :
    (sortDesc key l).filter (fun a => key a == c) =
      l.filter (fun a => key a == c) := by
  induction l with
  | nil => simp [sortDesc]
  | cons x xs ih =>
    by_cases hx : key x = c <;>
      simp [sortDesc, insDesc_filter_key, hx, List.filter_cons, ih]

theorem filter_take_exists {α : Type} (p : α → Bool) (l : List α) (n : Nat) :
    ∃ k, (l.take n).filter p = (l.filter p).take k := by
  induction l generalizing n with
  | nil => exact ⟨0, by simp⟩
  | cons x xs ih =>
    cases n with
    | zero => exact ⟨0, by simp⟩
    | succ n =>
      rcases ih n with ⟨k, hk⟩
      by_cases hx : p x
      · exact ⟨k + 1, by simp [List.filter_cons, hx, hk]⟩
      · exact ⟨k, by simp [List.filter_cons, hx, hk]⟩

/-! ### Character-level facts about ASCII lower-casing -/

theorem char_toNat_ofNat {n : Nat} (h : n < 55296) : (Char.ofNat n).toNat = n := by
  rw [Char.ofNat, dif_pos (Or.inl h)]
  rfl

theorem toLower_of_not_upper {c : Char} (h : ¬(65 ≤ c.toNat ∧ c.toNat ≤ 90)) :
    Char.toLower c = c := by
  rw [Char.toLower, if_neg]
  omega

theorem toLower_of_upper {c : Char} (h : 65 ≤ c.toNat ∧ c.toNat ≤ 90) :
    Char.toLower c = Char.ofNat (c.toNat + 32) := by
  rw [Char.toLower, if_pos]
  omega

/-- ASCII lower-casing is idempotent: a character produced by
`Char.toLower` is already lower-case. -/
theorem toLower_toLower (c : Char) : (Char.toLower c).toLower = Char.toLower c := by
  by_cases h : 65 ≤ c.toNat ∧ c.toNat ≤ 90
  · rw [toLower_of_upper h]
    apply toLower_of_not_upper
    rw [char_toNat_ofNat (by omega)]
    omega
  · rw [toLower_of_not_upper h, toLower_of_not_upper h]

/-- Lower-casing never turns a non-hyphen character into a hyphen. -/
theorem toLower_ne_hyphen {c : Char} (h : c ≠ '-') : Char.toLower c ≠ '-' := by
  by_cases hu : 65 ≤ c.toNat ∧ c.toNat ≤ 90
  · rw [toLower_of_upper hu]
    intro he
    have hn := congrArg Char.toNat he
    rw [char_toNat_ofNat (by omega)] at hn
    have h45 : Char.toNat '-' = 45 := by decide
    rw [h45] at hn
    omega
  · rw [toLower_of_not_upper hu]
    exact h

/-! ### The well-formedness invariant of the keyword frequency table -/

/-- A keyword string is well-formed: length more than 2, every character
fixed by lower-casing, and hyphen-free. -/
def KwGood (k : String) : Prop :=
  2 < k.length ∧ ∀ c ∈ k.data, Char.toLower c = c ∧ c ≠ '-'

theorem segKeyword_good {seg : List Char} {k : String}
    (h : segKeyword seg = some k) : KwGood k := by
  simp only [segKeyword] at h
  split at h
  · split at h
    case isTrue hlen =>
      refine ⟨?_, ?_⟩
      · injection h with h
        subst h
        simpa [String.length] using hlen
      · injection h with h
        subst h
        intro c hc
        simp only [String.data] at hc
        rcases List.mem_map.mp hc with ⟨c₀, hc₀, rfl⟩
        have hne : c₀ ≠ '-' := by
          have := List.of_mem_filter hc₀
          simpa using this
        exact ⟨toLower_toLower c₀, toLower_ne_hyphen hne⟩
    case isFalse => exact absurd h (by simp)
  · exact absurd h (by simp)

theorem urlKeywords_good {url : String} {k : String}
    (h : k ∈ urlKeywords url) : KwGood k := by
  rw [urlKeywords] at h
  split at h
  · simp at h
  · rcases List.mem_filterMap.mp h with ⟨seg, _, hseg⟩
    exact segKeyword_good hseg

/-- The invariant carried by each keyword-map entry. -/
def KwEntryInv (q : String × Nat) : Prop := KwGood q.1 ∧ 1 ≤ q.2

theorem bumpCount_inv {k : String} {m : List (String × Nat)}
    (hm : ∀ q ∈ m, KwEntryInv q) (hk : KwGood k) :
    ∀ q ∈ bumpCount k m, KwEntryInv q := by
  induction m with
  | nil =>
    intro q hq
    rw [bumpCount] at hq
    rcases List.mem_singleton.mp hq with rfl
    exact ⟨hk, Nat.le_refl 1⟩
  | cons p rest ih =>
    obtain ⟨k', c⟩ := p
    intro q hq
    rw [bumpCount] at hq
    by_cases he : k' = k
    · rw [if_pos he] at hq
      rcases List.mem_cons.mp hq with rfl | hq
      · exact ⟨(hm (k', c) (List.mem_cons_self _ _)).1, Nat.le_add_left 1 c⟩
      · exact hm q (List.mem_cons_of_mem _ hq)
    · rw [if_neg he] at hq
      rcases List.mem_cons.mp hq with rfl | hq
      · exact hm _ (List.mem_cons_self _ _)
      · exact ih (fun r hr => hm r (List.mem_cons_of_mem _ hr)) q hq

theorem foldl_bump_inv (ks : List String) (m : List (String × Nat))
    (hm : ∀ q ∈ m, KwEntryInv q) (hks : ∀ k ∈ ks, KwGood k) :
    ∀ q ∈ ks.foldl (fun m k => bumpCount k m) m, KwEntryInv q := by
  induction ks generalizing m with
  | nil => simpa using hm
  | cons k ks ih =>
    rw [List.foldl_cons]
    exact ih (bumpCount k m)
      (bumpCount_inv hm (hks k (List.mem_cons_self k ks)))
      (fun k' hk' => hks k' (List.mem_cons_of_mem k hk'))

theorem kwCounts_inv (urls : List String) :
    ∀ q ∈ kwCounts urls, KwEntryInv q := by
  rw [kwCounts]
  generalize hm : ([] : List (String × Nat)) = m
  have hminv : ∀ q ∈ m, KwEntryInv q := by
    subst hm
    simp
  clear hm
  induction urls generalizing m with
  | nil => simpa using hminv
  | cons u us ih =>
    rw [List.foldl_cons]
    exact ih _ (foldl_bump_inv (urlKeywords u) m hminv
      (fun k hk => urlKeywords_good hk))

/-! ### Claim C1: batch selection under a stale cursor -/

/-- C1 counterexample: with one feed and a stored cursor `lastIndex = 5 ≥ 1`,
the pass computes an out-of-range slice that yields zero feeds — it does not
reset the start position to 0 and process a slice starting at index 0 (such a
slice would contain the single feed). -/
theorem C1_counterexample :
    (performScheduledMonitoring
        (fun _ => Except.ok { success := true, newUrls := ["https://a.com/p"] })
        ["https://a.com/sitemap.xml"]
        (some { lastIndex := 5, totalFeeds := 1, processedInThisBatch := 1 })).results = []
      ∧
    (selectBatch ["https://a.com/sitemap.xml"] 5 BATCH_SIZE).slice = [] := by
  constructor <;> rfl

/-- C1 (amended): for every non-empty feed list and stored cursor with
`lastIndex ≥ length`, the pass processes the empty slice (zero feeds, no
notifications) but persists `nextIndex = 0`, so the following pass starts at
index 0; the reset happens through the persisted cursor, not within the
stale pass itself. -/
theorem C1_stale_cursor (inspect : String → Except String Outcome)
    (feeds : List String) (p : Progress)
    (h1 : feeds ≠ []) (h2 : feeds.length ≤ p.lastIndex) :
    (performScheduledMonitoring inspect feeds (some p)).results = [] ∧
    (performScheduledMonitoring inspect feeds (some p)).cursorWrite =
      some { lastIndex := 0, totalFeeds := feeds.length, processedInThisBatch := 0 } ∧
    (performScheduledMonitoring inspect feeds (some p)).immediateNotifs = [] ∧
    (performScheduledMonitoring inspect feeds (some p)).keywordSummaryArg = none := by
  have hL : ¬ feeds.length = 0 := fun h => h1 (List.length_eq_zero.mp h)
  have hmin : min (p.lastIndex + BATCH_SIZE) feeds.length = feeds.length :=
    Nat.min_eq_right (by omega)
  have hsub : feeds.length - p.lastIndex = 0 := Nat.sub_eq_zero_of_le h2
  simp [performScheduledMonitoring, selectBatch, hL, hmin, hsub, processBatch,
    allNewUrlsOf]

/-- C1 amended-claim witness at a concrete input. -/
theorem C1_witness :
    (performScheduledMonitoring
        (fun _ => Except.ok { success := true, newUrls := ["https://a.com/p"] })
        ["https://a.com/sitemap.xml"]
        (some { lastIndex := 5, totalFeeds := 1, processedInThisBatch := 1 })).cursorWrite =
      some { lastIndex := 0, totalFeeds := 1, processedInThisBatch := 0 } :=
  (C1_stale_cursor _ _ _ (by decide) (by decide)).2.1

/-! ### Claim C2: the selected slice and the persisted cursor -/

/-- C2: with `0 ≤ i < L` and `B > 0`, one pass selects exactly the contiguous
slice `feeds[i : min(i+B, L)]` (never splitting across the list boundary),
and the cursor persisted by the pass is the selector's `nextIndex`, which is
0 exactly when the tail is reached (`i + B ≥ L`) and `i + B` otherwise. -/
theorem C2_batch_selection (feeds : List String) (i B : Nat)
    (hB : 0 < B) (hi : i < feeds.length) :
    (selectBatch feeds i B).slice = (feeds.take (min (i + B) feeds.length)).drop i ∧
    (selectBatch feeds i B).slice.length = min (i + B) feeds.length - i ∧
    ((selectBatch feeds i B).nextIndex = 0 ↔ feeds.length ≤ i + B) ∧
    (i + B < feeds.length → (selectBatch feeds i B).nextIndex = i + B) ∧
    ∀ (inspect : String → Except String Outcome) (t pb : Nat),
      (performScheduledMonitoring inspect feeds
          (some { lastIndex := i, totalFeeds := t, processedInThisBatch := pb })).cursorWrite =
        some { lastIndex := (selectBatch feeds i BATCH_SIZE).nextIndex
               totalFeeds := feeds.length
               processedInThisBatch := (selectBatch feeds i BATCH_SIZE).slice.length } := by
  have hie : i ≤ min (i + B) feeds.length :=
    le_min (Nat.le_add_right i B) (Nat.le_of_lt hi)
  refine ⟨?_, ?_, ?_, ?_, ?_⟩
  · rw [selectBatch]
    simp only
    rw [List.take_drop, Nat.add_sub_cancel' hie]
  · rw [selectBatch]
    simp only [List.length_take, List.length_drop]
    have := Nat.min_le_right (i + B) feeds.length
    omega
  · rw [selectBatch]
    simp only
    by_cases h : feeds.length ≤ i + B
    · rw [if_pos (le_min h (Nat.le_refl _))]
      simp [h]
    · have hm : min (i + B) feeds.length = i + B :=
        Nat.min_eq_left (Nat.le_of_not_le h)
      rw [hm, if_neg h]
      constructor
      · intro h0
        omega
      · intro h0
        exact absurd h0 h
  · intro h
    rw [selectBatch]
    simp only
    have hm : min (i + B) feeds.length = i + B := Nat.min_eq_left (Nat.le_of_lt h)
    rw [hm, if_neg (Nat.not_le_of_lt h)]
  · intro inspect t pb
    have hL : ¬ feeds.length = 0 := by omega
    simp only [performScheduledMonitoring, if_neg hL]

/-- C2 witness at a concrete input. -/
theorem C2_witness :
    (selectBatch ["a", "b", "c"] 1 2).slice =
      ((["a", "b", "c"].take (min (1 + 2) 3)).drop 1) ∧
    ((selectBatch ["a", "b", "c"] 1 2).nextIndex = 0 ↔ (3 : Nat) ≤ 1 + 2) ∧
    (performScheduledMonitoring (fun _ => Except.ok { success := true, newUrls := [] })
        ["a", "b", "c"]
        (some { lastIndex := 1, totalFeeds := 3, processedInThisBatch := 1 })).cursorWrite =
      some { lastIndex := (selectBatch ["a", "b", "c"] 1 BATCH_SIZE).nextIndex
             totalFeeds := 3
             processedInThisBatch := (selectBatch ["a", "b", "c"] 1 BATCH_SIZE).slice.length } :=
  have h := C2_batch_selection ["a", "b", "c"] 1 2 (by decide) (by decide)
  ⟨h.1, h.2.2.1, h.2.2.2.2 _ 3 1⟩

/-! ### Claim C4: the concrete keyword and domain statistics example -/

/-- C4: on the two-URL example, keyword extraction returns exactly
`technews:1, helloworld:1, shop:1, tech:1` (the numeric segment `2024`
dropped, hyphens removed) and domain extraction returns exactly
`a.com: 2`. -/
theorem C4_concrete_example :
    extractKeywordsWithCount
        ["https://a.com/2024/tech-news/hello-world", "https://a.com/shop/tech"] =
      [{ keyword := "technews", count := 1 }, { keyword := "helloworld", count := 1 },
       { keyword := "shop", count := 1 }, { keyword := "tech", count := 1 }] ∧
    extractDomainStats
        ["https://a.com/2024/tech-news/hello-world", "https://a.com/shop/tech"] =
      [{ domain := "a.com", count := 2 }] := by
  constructor <;> decide

/-! ### Claim C5: ordering, stability and truncation of keyword statistics -/

/-- C5: the keyword statistics are sorted by count descending, entries with
equal count keep the first-seen order of the frequency map (the filter at any
fixed count value of the output is an initial segment of the same filter of
the map's entry list, which is in first-seen order), and at most 10 entries
are returned. -/
theorem C5_keyword_ranking (urls : List String) :
    (extractKeywordsWithCount urls).Pairwise (fun a b => b.count ≤ a.count) ∧
    (extractKeywordsWithCount urls).length ≤ 10 ∧
    ∀ c : Nat, ∃ k,
      (extractKeywordsWithCount urls).filter (fun s => s.count == c) =
        ((kwStatList urls).filter (fun s => s.count == c)).take k := by
  refine ⟨?_, ?_, ?_⟩
  · rw [extractKeywordsWithCount]
    exact List.Pairwise.sublist (List.take_sublist _ _)
      (sortDesc_pairwise (fun s => s.count) (kwStatList urls))
  · rw [extractKeywordsWithCount]
    exact List.length_take_le _ _
  · intro c
    rw [extractKeywordsWithCount]
    rcases filter_take_exists (fun s => s.count == c)
        (sortDesc (fun s => s.count) (kwStatList urls)) 10 with ⟨k, hk⟩
    exact ⟨k, hk.trans (congrArg (List.take k)
      (sortDesc_filter_key (fun s => s.count) (kwStatList urls) c))⟩

/-! ### Claim C6: per-feed failures are isolated -/

/-- C6: an exception from inspecting one feed of the slice is caught inside
the loop: the pass still produces one result per feed, the failing feed is
recorded as a failure, and every other feed in the slice is processed exactly
as it would have been otherwise. -/
theorem C6_failure_isolated (inspect : String → Except String Outcome)
    (l₁ l₂ : List String) (u e : String)
    (h : inspect u = Except.error e) :
    processBatch inspect (l₁ ++ u :: l₂) =
      processBatch inspect l₁ ++
        ({ url := u, success := false, newUrls := [], errorMessage := some e } : FeedResult) ::
          processBatch inspect l₂ ∧
    (processBatch inspect (l₁ ++ u :: l₂)).length = l₁.length + 1 + l₂.length := by
  constructor
  · simp [processBatch, handleFeed, h]
  · simp [processBatch]
    omega

/-- C6 witness at a concrete input: the feed in the middle throws and the
feeds before and after it are still processed. -/
theorem C6_witness :
    processBatch
        (fun v => if v = "https://bad.example/sitemap.xml" then Except.error "boom"
          else Except.ok { success := true, newUrls := ["https://a.com/x"] })
        (["https://g.com/sitemap.xml"] ++
          "https://bad.example/sitemap.xml" :: ["https://h.com/sitemap.xml"]) =
      processBatch
          (fun v => if v = "https://bad.example/sitemap.xml" then Except.error "boom"
            else Except.ok { success := true, newUrls := ["https://a.com/x"] })
          ["https://g.com/sitemap.xml"] ++
        ({ url := "https://bad.example/sitemap.xml", success := false, newUrls := [],
           errorMessage := some "boom" } : FeedResult) ::
          processBatch
            (fun v => if v = "https://bad.example/sitemap.xml" then Except.error "boom"
              else Except.ok { success := true, newUrls := ["https://a.com/x"] })
            ["https://h.com/sitemap.xml"] :=
  (C6_failure_isolated _ ["https://g.com/sitemap.xml"] ["https://h.com/sitemap.xml"]
    "https://bad.example/sitemap.xml" "boom" rfl).1

/-! ### Claim C7: a pass over an empty feed list has no effects -/

/-- C7: with an empty feed list the pass writes no progress record, sends no
immediate notification and no keyword summary, and processes nothing. -/
theorem C7_empty_feeds (inspect : String → Except String Outcome)
    (feeds : List String) (stored : Option Progress) (h : feeds = []) :
    (performScheduledMonitoring inspect feeds stored).cursorWrite = none ∧
    (performScheduledMonitoring inspect feeds stored).immediateNotifs = [] ∧
    (performScheduledMonitoring inspect feeds stored).keywordSummaryArg = none ∧
    (performScheduledMonitoring inspect feeds stored).results = [] := by
  subst h
  simp [performScheduledMonitoring]

/-- C7 witness at a concrete input. -/
theorem C7_witness :
    (performScheduledMonitoring (fun _ => Except.ok { success := true, newUrls := [] })
        [] (some { lastIndex := 3, totalFeeds := 7, processedInThisBatch := 2 })).cursorWrite =
      none ∧
    (performScheduledMonitoring (fun _ => Except.ok { success := true, newUrls := [] })
        [] (some { lastIndex := 3, totalFeeds := 7, processedInThisBatch := 2 })).immediateNotifs =
      [] ∧
    (performScheduledMonitoring (fun _ => Except.ok { success := true, newUrls := [] })
        [] (some { lastIndex := 3, totalFeeds := 7, processedInThisBatch := 2 })).keywordSummaryArg =
      none ∧
    (performScheduledMonitoring (fun _ => Except.ok { success := true, newUrls := [] })
        [] (some { lastIndex := 3, totalFeeds := 7, processedInThisBatch := 2 })).results = [] :=
  C7_empty_feeds _ _ _ rfl

/-! ### Claim C8: unparseable URLs are silently excluded from the statistics -/

theorem urlKeywords_eq_nil_of_parse_none {u : String} (h : parseURL u = none) :
    urlKeywords u = [] := by
  rw [urlKeywords, h]

theorem foldl_skip_unparseable {β : Type} (f : β → String → β)
    (hid : ∀ b u, parseURL u = none → f b u = b) :
    ∀ (l : List String) (b : β),
      l.foldl f b = (l.filter (fun u => (parseURL u).isSome)).foldl f b := by
  intro l
  induction l with
  | nil => intro b; rfl
  | cons u us ih =>
    intro b
    rw [List.foldl_cons, List.filter_cons]
    by_cases hu : (parseURL u).isSome
    · rw [if_pos hu, List.foldl_cons, ih]
    · have hnone : parseURL u = none := Option.not_isSome_iff_eq_none.mp hu
      rw [if_neg hu, hid b u hnone, ih]

/-- C8: a URL that fails to parse contributes to neither the keyword nor the
domain frequency table: both statistics are exactly those computed over only
the parseable URLs (aggregation is a total function, so a malformed URL never
aborts it). -/
theorem C8_malformed_excluded (urls : List String) :
    extractKeywordsWithCount urls =
      extractKeywordsWithCount (urls.filter (fun u => (parseURL u).isSome)) ∧
    extractDomainStats urls =
      extractDomainStats (urls.filter (fun u => (parseURL u).isSome)) := by
  constructor
  · rw [extractKeywordsWithCount, extractKeywordsWithCount, kwStatList, kwStatList,
      kwCounts, kwCounts]
    rw [foldl_skip_unparseable _ ?_ urls]
    intro b u hu
    rw [urlKeywords_eq_nil_of_parse_none hu]
    rfl
  · rw [extractDomainStats, extractDomainStats, domainCounts, domainCounts]
    rw [foldl_skip_unparseable _ ?_ urls]
    intro b u hu
    rw [hu]

/-! ### Claim C9: the freshly persisted cursor is strictly below the list length -/

theorem nextIndex_lt {feeds : List String} (i B : Nat) (hL : feeds.length ≠ 0) :
    (selectBatch feeds i B).nextIndex < feeds.length := by
  rw [selectBatch]
  simp only
  split
  · omega
  · next hc => exact Nat.lt_of_not_le hc

/-- C9: on a non-empty feed list the pass always writes a progress record,
whose `lastIndex` is 0 or strictly below the feed-list length (in fact always
strictly below it) and strictly below the `totalFeeds` written in the same
record — the freshly written cursor never equals the list length. -/
theorem C9_cursor_invariant (inspect : String → Except String Outcome)
    (feeds : List String) (stored : Option Progress) (h : feeds ≠ []) :
    ∃ p, (performScheduledMonitoring inspect feeds stored).cursorWrite = some p ∧
      p.totalFeeds = feeds.length ∧
      (p.lastIndex = 0 ∨ p.lastIndex < feeds.length) ∧
      p.lastIndex < p.totalFeeds := by
  have hL : ¬ feeds.length = 0 := fun hh => h (List.length_eq_zero.mp hh)
  simp only [performScheduledMonitoring, if_neg hL]
  refine ⟨_, rfl, rfl, Or.inr (nextIndex_lt _ _ hL), nextIndex_lt _ _ hL⟩

/-- C9 witness at a concrete input. -/
theorem C9_witness :
    ∃ p, (performScheduledMonitoring (fun _ => Except.ok { success := true, newUrls := [] })
        ["https://a.com/sitemap.xml"] none).cursorWrite = some p ∧
      p.totalFeeds = 1 ∧ (p.lastIndex = 0 ∨ p.lastIndex < 1) ∧ p.lastIndex < p.totalFeeds :=
  C9_cursor_invariant _ ["https://a.com/sitemap.xml"] none (by decide)

/-! ### Claim C10: well-formedness of every keyword statistic entry -/

/-- C10: every entry of the keyword statistics has a keyword that is
lower-case (fixed by lower-casing), hyphen-free and longer than 2
characters, and a count of at least 1. -/
theorem C10_keyword_wellformed (urls : List String) (s : KeywordStat)
    (hs : s ∈ extractKeywordsWithCount urls) :
    2 < s.keyword.length ∧ (∀ c ∈ s.keyword.data, Char.toLower c = c ∧ c ≠ '-') ∧
      1 ≤ s.count := by
  rw [extractKeywordsWithCount] at hs
  have hs1 := mem_sortDesc (List.mem_of_mem_take hs)
  rw [kwStatList] at hs1
  rcases List.mem_map.mp hs1 with ⟨q, hq, rfl⟩
  have hinv := kwCounts_inv urls q hq
  exact ⟨hinv.1.1, hinv.1.2, hinv.2⟩

/-- C10 witness at a concrete input. -/
theorem C10_witness :
    2 < (KeywordStat.mk "shop" 1).keyword.length ∧
    (∀ c ∈ (KeywordStat.mk "shop" 1).keyword.data, Char.toLower c = c ∧ c ≠ '-') ∧
    1 ≤ (KeywordStat.mk "shop" 1).count :=
  C10_keyword_wellformed ["https://a.com/shop/x"] ⟨"shop", 1⟩ (by decide)

/-! ### Claim C3: the breakdown of a "checked but nothing new" report -/

/-- C3 counterexample: one feed is checked successfully with no new URLs;
the domain map is then non-empty, so the report takes the non-empty branch,
whose filter on `totalNew > 0` leaves nothing — the per-domain breakdown is
left empty instead of stating the absence of new content explicitly. -/
theorem C3_counterexample :
    (handleNewsCommand (fun _ => Except.ok { success := true, newUrls := [] })
        ["https://a.com/sitemap.xml"]).processedCount = 1 ∧
    (handleNewsCommand (fun _ => Except.ok { success := true, newUrls := [] })
        ["https://a.com/sitemap.xml"]).domainResults =
      [{ domain := "a.com", newUrls := [], totalNew := 0 }] ∧
    breakdownSection
        (handleNewsCommand (fun _ => Except.ok { success := true, newUrls := [] })
          ["https://a.com/sitemap.xml"]).domainResults = BreakdownSection.blocks [] ∧
    BreakdownSection.blocks [] ≠ BreakdownSection.noContentNotice := by
  refine ⟨rfl, rfl, rfl, by decide⟩

/-- C3 (amended): the explicit no-new-content notice appears exactly when the
domain map is empty (no feed was checked successfully); when the map is
non-empty but no domain has new URLs, the breakdown section is an empty list
of blocks. -/
theorem C3_breakdown_empty (dr : List DomainData) (h0 : dr ≠ [])
    (h : ∀ d ∈ dr, d.totalNew = 0) :
    breakdownSection dr = BreakdownSection.blocks [] ∧
    (breakdownSection dr = BreakdownSection.noContentNotice ↔ dr = []) := by
  have hL : ¬ dr.length = 0 := fun hh => h0 (List.length_eq_zero.mp hh)
  have hf : dr.filter (fun d => decide (0 < d.totalNew)) = [] := by
    rw [List.filter_eq_nil_iff]
    intro d hd
    simp [h d hd]
  rw [breakdownSection, if_neg hL, hf]
  exact ⟨rfl, by simp [sortDesc, h0]⟩

/-- C3 amended-claim witness at a concrete input. -/
theorem C3_witness :
    breakdownSection [{ domain := "a.com", newUrls := [], totalNew := 0 }] =
      BreakdownSection.blocks [] ∧
    (breakdownSection [{ domain := "a.com", newUrls := [], totalNew := 0 }] =
        BreakdownSection.noContentNotice ↔
      [({ domain := "a.com", newUrls := [], totalNew := 0 } : DomainData)] = []) :=
  C3_breakdown_empty _ (by decide) (by decide)

end SitemapDiff
